import Mathlib

/-!
Verification of the Tock `read_only_state` capsule
(`capsules/extra/src/read_only_state.rs`), a vDSO-style mechanism that
publishes kernel state (switch count, pending-task count, tick count) into a
userspace-shared buffer on every context switch away from a process.

The embedding models bytes as `Nat` values, buffers as `List Nat`, and the
Rust panics (`unwrap`, slice-range mismatch in `copy_from_slice`) as `none`
results, so "does not fault" becomes "the function returns `some`".
-/

namespace ReadOnlyState

/-- Four little-endian bytes of `n` as a 32-bit value (`u32::to_le_bytes`). -/
def toLeBytes32 (n : Nat) : List Nat :=
  [n % 256, n / 2 ^ 8 % 256, n / 2 ^ 16 % 256, n / 2 ^ 24 % 256]

/-- Eight little-endian bytes of `n` as a 64-bit value (`u64::to_le_bytes`). -/
def toLeBytes64 (n : Nat) : List Nat :=
  [n % 256, n / 2 ^ 8 % 256, n / 2 ^ 16 % 256, n / 2 ^ 24 % 256,
   n / 2 ^ 32 % 256, n / 2 ^ 40 % 256, n / 2 ^ 48 % 256, n / 2 ^ 56 % 256]

/-- Little-endian decoding of a byte list (least-significant byte first). -/
def fromLeBytes : List Nat → Nat
  | [] => 0
  | b :: bs => b + 256 * fromLeBytes bs

/-- Model of `buf[lo..hi].copy_from_slice(src)`. Returns the updated buffer;
`none` models the Rust panic when the range is out of bounds or the source
length differs from the range length. -/
def copyFromSlice (buf src : List Nat) (lo hi : Nat) : Option (List Nat) :=
  if lo ≤ hi ∧ hi ≤ buf.length ∧ src.length = hi - lo then
    some (buf.take lo ++ src ++ buf.drop hi)
  else none

/-- Per-process grant record of the capsule: `struct App { count: Cell<u32> }`. -/
structure App where
  count : Nat
deriving DecidableEq

/-- Default value produced by `#[derive(Default)]` on `App`: the `Cell<u32>`
starts at 0. -/
def App.default : App := ⟨0⟩

/-- State of the `Time` collaborator: `ticks` is the value that
`timer.now().into_usize() as u64` yields, and `reads` counts how many times
`now()` has been sampled (making the timer frame effect observable). -/
structure Timer where
  ticks : Nat
  reads : Nat
deriving DecidableEq

/-- Model of `self.timer.now().into_usize() as u64`, also recording that one
sampling happened. -/
def Timer.now (t : Timer) : Nat × Timer :=
  (t.ticks % 2 ^ 64, ⟨t.ticks, t.reads + 1⟩)

/-- Per-process state visible through one grant entry: the `App` record and
the userspace-readable process buffer (slot 0). `sharedBuf = none` models
`get_userspace_readable_processbuffer(0)` or `mut_enter` failing (no buffer
shared); that error is discarded by `let _ =` in the source. -/
structure ProcState where
  app : App
  sharedBuf : Option (List Nat)
deriving DecidableEq

/-- Values of `kernel::process::Error` relevant here (the kernel crate is an
external collaborator; only the shape of the error matters). -/
inductive ProcessError
  | noSuchApp
  | inactiveApp
  | kernelError
deriving DecidableEq

/-- Modelled from the spec: the Access-Control Grant (the kernel `Grant` type
is not among the sources of this repository slice) supplies "fallible,
isolated access to a process's Per-Process Record and Shared Buffer Handle".
`GrantLookup` is the outcome of `self.apps.enter(processid, ...)` for one
process: either a resolution error or the process's grant entry. -/
inductive GrantLookup
  | err (e : ProcessError)
  | ok (p : ProcState)
deriving DecidableEq

/-- Closure passed to `mut_enter` in `context_switch_hook`: writes each field
of layout version 1 whose guard `buf.len() >= k` holds, sampling the timer
only inside the `buf.len() >= 16` branch. `none` models a slice panic. -/
def publishToBuf (count pending : Nat) (timer : Timer) (buf : List Nat) :
    Option (List Nat × Timer) :=
  match (if 4 ≤ buf.length then copyFromSlice buf (toLeBytes32 count) 0 4 else some buf) with
  | none => none
  | some b1 =>
    match (if 8 ≤ buf.length then copyFromSlice b1 (toLeBytes32 pending) 4 8 else some b1) with
    | none => none
    | some b2 =>
      if 16 ≤ buf.length then
        let r := timer.now
        match copyFromSlice b2 (toLeBytes64 r.1) 8 16 with
        | none => none
        | some b3 => some (b3, r.2)
      else
        some (b2, timer)

/-- Model of `ContextSwitchCallback::context_switch_hook`: enter the grant
(the source calls `.unwrap()` on the result, so a resolution error is a
kernel panic, modelled as `none`), write the fields that fit into the shared
buffer (a buffer-access failure is discarded by `let _ =`), then advance the
wrapping `u32` counter. -/
def context_switch_hook (timer : Timer) (pending_tasks : Nat) (g : GrantLookup) :
    Option (ProcState × Timer) :=
  match g with
  | .err _ => none
  | .ok p =>
    let count := p.app.count
    let inner : Option (Option (List Nat) × Timer) :=
      match p.sharedBuf with
      | none => some (none, timer)
      | some buf =>
        match publishToBuf count pending_tasks timer buf with
        | none => none
        | some (b, t) => some (some b, t)
    match inner with
    | none => none
    | some (b, t) => some (⟨⟨(count + 1) % 2 ^ 32⟩, b⟩, t)

/-- Values of `kernel::ErrorCode` used by this capsule. -/
inductive ErrorCode
  | NOSUPPORT
deriving DecidableEq

/-- Variants of `kernel::syscall::CommandReturn` used by this capsule. -/
inductive CommandReturn
  | success
  | success_u32 (v : Nat)
  | failure (e : ErrorCode)
deriving DecidableEq

/-- Constant `const VERSION: u32 = 1`. -/
def VERSION : Nat := 1

/-- Model of `SyscallDriver::command`: dispatch on the command number. -/
def command (command_number _target_id _arg2 _processid : Nat) : CommandReturn :=
  match command_number with
  | 0 => .success
  | 1 => .success_u32 VERSION
  | _ => .failure .NOSUPPORT

/-- Model of `SyscallDriver::allocate_grant`:
`self.apps.enter(processid, |_, _| {})`, returning the grant-resolution
result to the caller. -/
def allocate_grant (g : GrantLookup) : Except ProcessError Unit :=
  match g with
  | .err e => .error e
  | .ok _ => .ok ()

/-- Driver-visible kernel state: one grant entry per process id, plus the
timer. The Rust `command` borrows `&self` and touches none of it. -/
structure DriverState where
  procs : List (Nat × ProcState)
  timer : Timer
deriving DecidableEq

/-- Action of `command` on the full driver state: the Rust body reads no
field of `self` and mutates nothing, so the state passes through unchanged. -/
def commandOnDriver (s : DriverState) (command_number target_id arg2 processid : Nat) :
    CommandReturn × DriverState :=
  (command command_number target_id arg2 processid, s)

/-- Run a sequence of command calls (each a tuple of the four arguments),
threading the driver state. -/
def runCommands (s : DriverState) : List (Nat × Nat × Nat × Nat) → DriverState
  | [] => s
  | c :: cs => runCommands (commandOnDriver s c.1 c.2.1 c.2.2.1 c.2.2.2).2 cs

/-- Run several publish cycles on one process's grant entry; cycle `k`
supplies the tick reading and pending-task count `inputs[k] = (tick, pending)`. -/
def runCycles (p : ProcState) : List (Nat × Nat) → Option ProcState
  | [] => some p
  | (tick, pending) :: rest =>
    match context_switch_hook ⟨tick, 0⟩ pending (.ok p) with
    | none => none
    | some (q, _) => runCycles q rest

theorem toLeBytes32_length (n : Nat) : (toLeBytes32 n).length = 4 := rfl

theorem toLeBytes64_length (n : Nat) : (toLeBytes64 n).length = 8 := rfl

theorem publishToBuf_lt4 {buf : List Nat} (c p : Nat) (t : Timer) (h : buf.length < 4) :
    publishToBuf c p t buf = some (buf, t) := by
  have h4 : ¬ 4 ≤ buf.length := by omega
  have h8 : ¬ 8 ≤ buf.length := by omega
  have h16 : ¬ 16 ≤ buf.length := by omega
  simp [publishToBuf, h4, h8, h16]

theorem publishToBuf_ge4_lt8 {buf : List Nat} (c p : Nat) (t : Timer)
    (h4 : 4 ≤ buf.length) (h8 : buf.length < 8) :
    publishToBuf c p t buf = some (toLeBytes32 c ++ buf.drop 4, t) := by
  have h8n : ¬ 8 ≤ buf.length := by omega
  have h16 : ¬ 16 ≤ buf.length := by omega
  simp [publishToBuf, copyFromSlice, h4, h8n, h16, toLeBytes32]

theorem publishToBuf_ge8_lt16 {buf : List Nat} (c p : Nat) (t : Timer)
    (h8 : 8 ≤ buf.length) (h16 : buf.length < 16) :
    publishToBuf c p t buf =
      some (toLeBytes32 c ++ toLeBytes32 p ++ buf.drop 8, t) := by
  have h4 : 4 ≤ buf.length := by omega
  have h16n : ¬ 16 ≤ buf.length := by omega
  have e1 : 4 ≤ buf.length - 4 := by omega
  simp [publishToBuf, copyFromSlice, h4, h8, h16n, e1, toLeBytes32, List.drop_drop]

theorem publishToBuf_ge16 {buf : List Nat} (c p : Nat) (t : Timer)
    (h16 : 16 ≤ buf.length) :
    publishToBuf c p t buf =
      some (toLeBytes32 c ++ toLeBytes32 p ++ toLeBytes64 (t.ticks % 2 ^ 64) ++ buf.drop 16,
        ⟨t.ticks, t.reads + 1⟩) := by
  have h4 : 4 ≤ buf.length := by omega
  have h8 : 8 ≤ buf.length := by omega
  have e1 : 4 ≤ buf.length - 4 := by omega
  have e2 : 8 ≤ buf.length - 8 := by omega
  simp [publishToBuf, copyFromSlice, Timer.now, h4, h8, h16, e1, e2, toLeBytes32, toLeBytes64,
    List.drop_drop]

theorem getD_drop (l : List Nat) (k i d : Nat) :
    (l.drop k).getD i d = l.getD (k + i) d := by
  simp [List.getD_eq_getElem?_getD, List.getElem?_drop]

theorem hook_ok_some {buf b2 : List Nat} {count pending : Nat} {t t2 : Timer}
    (h : publishToBuf count pending t buf = some (b2, t2)) :
    context_switch_hook t pending (.ok ⟨⟨count⟩, some buf⟩) =
      some (⟨⟨(count + 1) % 2 ^ 32⟩, some b2⟩, t2) := by
  simp [context_switch_hook, h]

theorem getD_chunk (l1 l2 : List Nat) (i d : Nat) :
    (l1 ++ l2).getD i d =
      if i < l1.length then l1.getD i d else l2.getD (i - l1.length) d := by
  by_cases h : i < l1.length
  · rw [if_pos h, List.getD_append _ _ _ _ h]
  · rw [if_neg h, List.getD_append_right _ _ _ _ (by omega)]

theorem fromLeBytes_toLeBytes32 (n : Nat) : fromLeBytes (toLeBytes32 n) = n % 2 ^ 32 := by
  simp [toLeBytes32, fromLeBytes]
  omega

theorem fromLeBytes_toLeBytes64 (n : Nat) : fromLeBytes (toLeBytes64 n) = n % 2 ^ 64 := by
  simp [toLeBytes64, fromLeBytes]
  omega

theorem toLeBytes32_mod (n : Nat) : toLeBytes32 (n % 2 ^ 32) = toLeBytes32 n := by
  simp [toLeBytes32]
  omega

theorem hook_ge16 {buf : List Nat} (count pending : Nat) (t : Timer)
    (h16 : 16 ≤ buf.length) :
    context_switch_hook t pending (.ok ⟨⟨count⟩, some buf⟩) =
      some (⟨⟨(count + 1) % 2 ^ 32⟩,
        some (toLeBytes32 count ++ toLeBytes32 pending ++
          toLeBytes64 (t.ticks % 2 ^ 64) ++ buf.drop 16)⟩,
        ⟨t.ticks, t.reads + 1⟩) :=
  hook_ok_some (publishToBuf_ge16 count pending t h16)

theorem fields_take_drop (cnt pnd tk : Nat) (rest : List Nat) :
    (toLeBytes32 cnt ++ toLeBytes32 pnd ++ toLeBytes64 tk ++ rest).take 4 = toLeBytes32 cnt ∧
    ((toLeBytes32 cnt ++ toLeBytes32 pnd ++ toLeBytes64 tk ++ rest).drop 4).take 4
      = toLeBytes32 pnd ∧
    ((toLeBytes32 cnt ++ toLeBytes32 pnd ++ toLeBytes64 tk ++ rest).drop 8).take 8
      = toLeBytes64 tk := by
  have hB : toLeBytes32 cnt ++ toLeBytes32 pnd ++ toLeBytes64 tk ++ rest
      = toLeBytes32 cnt ++ (toLeBytes32 pnd ++ (toLeBytes64 tk ++ rest)) := by
    simp [List.append_assoc]
  have hB8 : toLeBytes32 cnt ++ toLeBytes32 pnd ++ toLeBytes64 tk ++ rest
      = (toLeBytes32 cnt ++ toLeBytes32 pnd) ++ (toLeBytes64 tk ++ rest) := by
    simp [List.append_assoc]
  refine ⟨?_, ?_, ?_⟩
  · rw [hB, List.take_left' (toLeBytes32_length cnt)]
  · rw [hB, List.drop_left' (toLeBytes32_length cnt),
      List.take_left' (toLeBytes32_length pnd)]
  · rw [hB8, List.drop_left' (by simp [List.length_append, toLeBytes32_length]),
      List.take_left' (toLeBytes64_length tk)]

theorem runCycles_nil (p : ProcState) : runCycles p [] = some p := rfl

theorem runCycles_cons (p : ProcState) (tk pd : Nat) (rest : List (Nat × Nat)) :
    runCycles p ((tk, pd) :: rest) =
      match context_switch_hook ⟨tk, 0⟩ pd (.ok p) with
      | none => none
      | some (q, _) => runCycles q rest := rfl

theorem runCycles_ge16 (inputs : List (Nat × Nat)) :
    ∀ (c : Nat) (buf : List Nat), 16 ≤ buf.length →
    ∀ tick pending, inputs.getLast? = some (tick, pending) →
      runCycles ⟨⟨c⟩, some buf⟩ inputs =
        some ⟨⟨(c + inputs.length) % 2 ^ 32⟩,
          some (toLeBytes32 ((c + inputs.length - 1) % 2 ^ 32) ++ toLeBytes32 pending ++
            toLeBytes64 (tick % 2 ^ 64) ++ buf.drop 16)⟩ := by
  induction inputs with
  | nil => intro c buf h16 tick pending hlast; simp at hlast
  | cons hd tl ih =>
    intro c buf h16 tick pending hlast
    match tl, hd with
    | [], (tk, pd) =>
      have hpair : tk = tick ∧ pd = pending := by simpa using hlast
      obtain ⟨rfl, rfl⟩ := hpair
      rw [runCycles_cons]
      simp only [hook_ge16 c pd ⟨tk, 0⟩ h16, runCycles_nil]
      simp only [List.length_cons, List.length_nil]
      rw [Nat.add_sub_cancel, toLeBytes32_mod]
    | x :: xs, (tk, pd) =>
      rw [List.getLast?_cons_cons] at hlast
      have hlen : 16 ≤ (toLeBytes32 c ++ toLeBytes32 pd ++
          toLeBytes64 (tk % 2 ^ 64) ++ buf.drop 16).length := by
        simp only [List.length_append, toLeBytes32_length, toLeBytes64_length,
          List.length_drop]
        omega
      have hdrop : (toLeBytes32 c ++ toLeBytes32 pd ++
          toLeBytes64 (tk % 2 ^ 64) ++ buf.drop 16).drop 16 = buf.drop 16 := by
        rw [show toLeBytes32 c ++ toLeBytes32 pd ++ toLeBytes64 (tk % 2 ^ 64) ++ buf.drop 16
            = (toLeBytes32 c ++ toLeBytes32 pd ++ toLeBytes64 (tk % 2 ^ 64)) ++ buf.drop 16
          from by simp [List.append_assoc]]
        rw [List.drop_left' (by simp [List.length_append, toLeBytes32_length,
          toLeBytes64_length])]
      rw [runCycles_cons]
      simp only [hook_ge16 c pd ⟨tk, 0⟩ h16]
      rw [ih ((c + 1) % 2 ^ 32) _ hlen tick pending hlast, hdrop]
      have hc1 : ((c + 1) % 2 ^ 32 + (x :: xs).length) % 2 ^ 32
          = (c + ((tk, pd) :: x :: xs).length) % 2 ^ 32 := by
        simp only [List.length_cons]
        omega
      have hc2 : ((c + 1) % 2 ^ 32 + (x :: xs).length - 1) % 2 ^ 32
          = (c + ((tk, pd) :: x :: xs).length - 1) % 2 ^ 32 := by
        simp only [List.length_cons]
        omega
      rw [hc1, hc2]

theorem hook_ok_full (t : Timer) (pending : Nat) (p : ProcState) :
    ∃ b2 t2, context_switch_hook t pending (.ok p)
        = some (⟨⟨(p.app.count + 1) % 2 ^ 32⟩, b2⟩, t2) ∧
      t2.ticks = t.ticks ∧
      t2.reads = t.reads +
        (match p.sharedBuf with
         | none => 0
         | some buf => if 16 ≤ buf.length then 1 else 0) := by
  obtain ⟨⟨c⟩, buf?⟩ := p
  cases buf? with
  | none => exact ⟨none, t, rfl, rfl, rfl⟩
  | some buf =>
    by_cases h16 : 16 ≤ buf.length
    · exact ⟨_, _, hook_ok_some (publishToBuf_ge16 c pending t h16), rfl, by simp [h16]⟩
    · by_cases h8 : 8 ≤ buf.length
      · exact ⟨_, _, hook_ok_some (publishToBuf_ge8_lt16 c pending t h8 (by omega)), rfl,
          by simp [h16]⟩
      · by_cases h4 : 4 ≤ buf.length
        · exact ⟨_, _, hook_ok_some (publishToBuf_ge4_lt8 c pending t h4 (by omega)), rfl,
            by simp [h16]⟩
        · exact ⟨_, _, hook_ok_some (publishToBuf_lt4 c pending t (by omega)), rfl,
            by simp [h16]⟩

theorem runCommands_id (cs : List (Nat × Nat × Nat × Nat)) :
    ∀ s : DriverState, runCommands s cs = s := by
  induction cs with
  | nil => intro s; rfl
  | cons c cs ih => intro s; exact ih s

/-- C1: one invocation of `context_switch_hook` on a buffer of length L
writes exactly the fields of layout version 1 whose full byte range lies
within L (switch count iff L ≥ 4, pending-task count iff L ≥ 8, tick count
iff L ≥ 16), never changes the buffer length, writes nothing for L = 0, and
does not fault; since the statement quantifies over the buffer offered at
this invocation, it holds even if the process shrank the buffer since the
previous cycle. -/
theorem c1_publish_respects_buffer_length (t : Timer) (pending count : Nat) (buf : List Nat) :
    ∃ b2 t2,
      context_switch_hook t pending (.ok ⟨⟨count⟩, some buf⟩)
        = some (⟨⟨(count + 1) % 2 ^ 32⟩, some b2⟩, t2) ∧
      b2.length = buf.length ∧
      (buf.length = 0 → b2 = buf) ∧
      (∀ i, b2.getD i 0 =
        if 4 ≤ buf.length ∧ i < 4 then (toLeBytes32 count).getD i 0
        else if 8 ≤ buf.length ∧ 4 ≤ i ∧ i < 8 then (toLeBytes32 pending).getD (i - 4) 0
        else if 16 ≤ buf.length ∧ 8 ≤ i ∧ i < 16 then
          (toLeBytes64 (t.ticks % 2 ^ 64)).getD (i - 8) 0
        else buf.getD i 0) := by
  by_cases h4 : 4 ≤ buf.length
  · by_cases h8 : 8 ≤ buf.length
    · by_cases h16 : 16 ≤ buf.length
      · refine ⟨_, _, hook_ok_some (publishToBuf_ge16 count pending t h16), ?_, ?_, ?_⟩
        · simp only [List.length_append, toLeBytes32_length, toLeBytes64_length,
            List.length_drop]
          omega
        · intro h0; omega
        · intro i
          simp only [getD_chunk, List.length_append, toLeBytes32_length, toLeBytes64_length,
            getD_drop]
          split_ifs <;> first | rfl | (exfalso; omega) | (congr 1; omega)
      · refine ⟨_, _, hook_ok_some (publishToBuf_ge8_lt16 count pending t h8 (by omega)),
          ?_, ?_, ?_⟩
        · simp only [List.length_append, toLeBytes32_length, List.length_drop]
          omega
        · intro h0; omega
        · intro i
          simp only [getD_chunk, List.length_append, toLeBytes32_length, getD_drop]
          split_ifs <;> first | rfl | (exfalso; omega) | (congr 1; omega)
    · refine ⟨_, _, hook_ok_some (publishToBuf_ge4_lt8 count pending t h4 (by omega)),
        ?_, ?_, ?_⟩
      · simp only [List.length_append, toLeBytes32_length, List.length_drop]
        omega
      · intro h0; omega
      · intro i
        simp only [getD_chunk, List.length_append, toLeBytes32_length, getD_drop]
        split_ifs <;> first | rfl | (exfalso; omega) | (congr 1; omega)
  · refine ⟨_, _, hook_ok_some (publishToBuf_lt4 count pending t (by omega)), rfl,
      fun _ => rfl, ?_⟩
    intro i
    split_ifs <;> first | rfl | (exfalso; omega)

/-- C2: contrary to the claim, when grant resolution fails the publish hook
is not a safe no-op: the source calls `.unwrap()` on `apps.enter`, so the
hook panics (modelled as `none`) instead of returning silently. This theorem
evaluates the code at a failing input (a process whose grant entry cannot be
resolved). -/
theorem c2_hook_panics_on_grant_failure (t : Timer) (pending : Nat) (e : ProcessError) :
    context_switch_hook t pending (.err e) = none := rfl

/-- C3 counterexample: with a fresh record and a 16-byte buffer, after one
publish cycle the switch-count field decodes to 0, not to 1 = N mod 2^32 as
the claim states — the hook writes the counter value read before the
increment. -/
theorem c3_switch_count_off_by_one_cex :
    (runCycles ⟨⟨0⟩, some (List.replicate 16 0)⟩ [(7, 3)]).map
        (fun p => p.sharedBuf.map (fun b => fromLeBytes (b.take 4)))
      = some (some 0) ∧ (0 : Nat) ≠ 1 % 2 ^ 32 := by
  constructor
  · decide
  · decide

/-- C3 (amended): for a fresh record and a buffer of length ≥ 16, after N
publish cycles the switch-count field decodes to (N - 1) mod 2^32 (the value
before the N-th increment; the stored counter is N mod 2^32), the
pending-task field decodes to the pending count of the N-th cycle, and the
tick field decodes to the clock reading of the N-th cycle; in the example
scenario (buffer length 8, pending counts 3 then 5), bytes 0-3 decode to 0
then 1, bytes 4-7 decode to 3 then 5, and the buffer keeps length 8 so no
byte beyond it is ever written. -/
theorem c3_fields_after_n_cycles_amended (buf : List Nat) (inputs : List (Nat × Nat))
    (tick pending : Nat) (h16 : 16 ≤ buf.length)
    (hlast : inputs.getLast? = some (tick, pending)) :
    (∃ b2, runCycles ⟨⟨0⟩, some buf⟩ inputs
        = some ⟨⟨inputs.length % 2 ^ 32⟩, some b2⟩ ∧
      fromLeBytes (b2.take 4) = (inputs.length - 1) % 2 ^ 32 ∧
      fromLeBytes ((b2.drop 4).take 4) = pending % 2 ^ 32 ∧
      fromLeBytes ((b2.drop 8).take 8) = tick % 2 ^ 64) ∧
    (runCycles ⟨⟨0⟩, some (List.replicate 8 0)⟩ [(100, 3)]).map
        (fun p => p.sharedBuf.map
          (fun b => (fromLeBytes (b.take 4), fromLeBytes ((b.drop 4).take 4), b.length)))
      = some (some (0, 3, 8)) ∧
    (runCycles ⟨⟨0⟩, some (List.replicate 8 0)⟩ [(100, 3), (250, 5)]).map
        (fun p => p.sharedBuf.map
          (fun b => (fromLeBytes (b.take 4), fromLeBytes ((b.drop 4).take 4), b.length)))
      = some (some (1, 5, 8)) := by
  refine ⟨?_, by decide, by decide⟩
  rw [runCycles_ge16 inputs 0 buf h16 tick pending hlast]
  refine ⟨_, by rw [Nat.zero_add], ?_, ?_, ?_⟩
  · rw [(fields_take_drop _ _ _ _).1, fromLeBytes_toLeBytes32]
    omega
  · rw [(fields_take_drop _ _ _ _).2.1, fromLeBytes_toLeBytes32]
  · rw [(fields_take_drop _ _ _ _).2.2, fromLeBytes_toLeBytes64]
    omega

/-- C3 witness: the amended theorem applied to a 16-byte buffer and the two
concrete cycles (tick 100, pending 3) then (tick 250, pending 5). -/
theorem c3_fields_after_n_cycles_amended_witness :
    16 ≤ (List.replicate 16 0 : List Nat).length ∧
    ([(100, 3), (250, 5)] : List (Nat × Nat)).getLast? = some (250, 5) ∧
    ((∃ b2, runCycles ⟨⟨0⟩, some (List.replicate 16 0)⟩ [(100, 3), (250, 5)]
        = some ⟨⟨([(100, 3), (250, 5)] : List (Nat × Nat)).length % 2 ^ 32⟩, some b2⟩ ∧
      fromLeBytes (b2.take 4)
        = (([(100, 3), (250, 5)] : List (Nat × Nat)).length - 1) % 2 ^ 32 ∧
      fromLeBytes ((b2.drop 4).take 4) = 5 % 2 ^ 32 ∧
      fromLeBytes ((b2.drop 8).take 8) = 250 % 2 ^ 64) ∧
    (runCycles ⟨⟨0⟩, some (List.replicate 8 0)⟩ [(100, 3)]).map
        (fun p => p.sharedBuf.map
          (fun b => (fromLeBytes (b.take 4), fromLeBytes ((b.drop 4).take 4), b.length)))
      = some (some (0, 3, 8)) ∧
    (runCycles ⟨⟨0⟩, some (List.replicate 8 0)⟩ [(100, 3), (250, 5)]).map
        (fun p => p.sharedBuf.map
          (fun b => (fromLeBytes (b.take 4), fromLeBytes ((b.drop 4).take 4), b.length)))
      = some (some (1, 5, 8))) :=
  ⟨by decide, by decide,
    c3_fields_after_n_cycles_amended (List.replicate 16 0) [(100, 3), (250, 5)] 250 5
      (by decide) (by decide)⟩

/-- C4: the per-process switch counter is 0 in a freshly allocated record
(the derived `Default`), every completed publish cycle advances it by
exactly 1 modulo 2^32, and from 2^32 - 1 it wraps to 0 on the next cycle
without faulting. -/
theorem c4_counter_zero_increment_wrap :
    App.default.count = 0 ∧
    (∀ (t : Timer) (pending : Nat) (p : ProcState),
      ∃ b2 t2, context_switch_hook t pending (.ok p)
          = some (⟨⟨(p.app.count + 1) % 2 ^ 32⟩, b2⟩, t2)) ∧
    (∀ (t : Timer) (pending : Nat) (b : Option (List Nat)),
      ∃ b2 t2, context_switch_hook t pending (.ok ⟨⟨2 ^ 32 - 1⟩, b⟩)
          = some (⟨⟨0⟩, b2⟩, t2)) := by
  refine ⟨rfl, ?_, ?_⟩
  · intro t pending p
    obtain ⟨b2, t2, h, -⟩ := hook_ok_full t pending p
    exact ⟨b2, t2, h⟩
  · intro t pending b
    obtain ⟨b2, t2, h, -⟩ := hook_ok_full t pending ⟨⟨2 ^ 32 - 1⟩, b⟩
    refine ⟨b2, t2, ?_⟩
    rw [h]
    norm_num

/-- C5: command number 0 always succeeds with no payload, command number 1
succeeds returning the constant layout version 1 as a u32, and every other
command number fails with NOSUPPORT. -/
theorem c5_command_dispatch (n t a pid : Nat) :
    command 0 t a pid = .success ∧
    (command 1 t a pid = .success_u32 VERSION ∧ VERSION = 1) ∧
    command (n + 2) t a pid = .failure .NOSUPPORT :=
  ⟨rfl, ⟨rfl, rfl⟩, rfl⟩

/-- C6: `allocate_grant` returns the underlying grant-allocation failure to
the caller as an explicit error result (it is a total function, so it never
panics), and returns Ok on success. -/
theorem c6_allocate_grant_propagates_failure (e : ProcessError) (p : ProcState) :
    allocate_grant (.err e) = .error e ∧ allocate_grant (.ok p) = .ok () :=
  ⟨rfl, rfl⟩

/-- C7: a command call leaves the whole driver-visible kernel state
unchanged, any sequence of command calls leaves it unchanged, and after any
such sequence the version query still returns the constant VERSION. -/
theorem c7_command_no_state_mutation_constant_version
    (s : DriverState) (cs : List (Nat × Nat × Nat × Nat))
    (cn t a pid t2 a2 pid2 : Nat) :
    (commandOnDriver s cn t a pid).2 = s ∧
    runCommands s cs = s ∧
    (commandOnDriver (runCommands s cs) 1 t2 a2 pid2).1 = .success_u32 VERSION :=
  ⟨rfl, runCommands_id cs s, rfl⟩

/-- C8: for a process with a grant entry but no retrievable shared buffer,
the publish hook still completes and advances the switch counter by exactly
1 modulo 2^32; the buffer-access failure is silently discarded. -/
theorem c8_counter_advances_without_buffer (t : Timer) (pending c : Nat) :
    context_switch_hook t pending (.ok ⟨⟨c⟩, none⟩) =
      some (⟨⟨(c + 1) % 2 ^ 32⟩, none⟩, t) := rfl

/-- C9: during a publish cycle the timer is sampled exactly once when the
shared buffer exists and has length ≥ 16, and is never sampled otherwise. -/
theorem c9_timer_sampled_iff_buffer_ge16 (t : Timer) (pending : Nat) (p : ProcState) :
    ∃ q t2, context_switch_hook t pending (.ok p) = some (q, t2) ∧
      t2.ticks = t.ticks ∧
      t2.reads = t.reads +
        (match p.sharedBuf with
         | none => 0
         | some buf => if 16 ≤ buf.length then 1 else 0) := by
  obtain ⟨b2, t2, h, hticks, hreads⟩ := hook_ok_full t pending p
  exact ⟨_, t2, h, hticks, hreads⟩

/-- C10: the result of a command call depends only on the command number;
the other two arguments and the process identity never influence it. -/
theorem c10_command_depends_only_on_number (cn t a pid u b qid : Nat) :
    command cn t a pid = command cn u b qid := by
  cases cn with
  | zero => rfl
  | succ m =>
    cases m with
    | zero => rfl
    | succ k => rfl

end ReadOnlyState
